import Mathlib

set_option maxRecDepth 100000

/-!
Verification development for the redstone assembler
(`src/main.rs` of binary-banter/redstone-assembler).

The program is an assembler for a fixed-width 8-bit instruction set.  It
reads source lines, strips `//` comments, tokenizes on whitespace, matches
each token sequence against a fixed instruction table producing one opcode
byte per line, stores the bytes into a 128-byte ROM image pre-filled with
zeros, and finally emits one `setblock` placement command per bit of the
image over a fixed 4 x 32 grid of coordinates.

The definitions below are a shallow embedding of that Rust source:
machine integers (`u8`, `isize`) become `Nat` / `Int` (all opcode values
stay below 256, so no masking is needed), `Option<u8>` becomes
`Option Nat`, and the fallible parts of `main` (the early `return` on a
parse failure, and the panic of the out-of-bounds `opcodes[i] = v` write)
become an explicit result type.
-/

/-- `const ROM_BYTES: usize = 128;` -/
def ROM_BYTES : Nat := 128

/-- `fn src_to_bits(reg: &str) -> Option<u8>` — general source register, 2-bit
index in bits 3–4. -/
def src_to_bits (reg : String) : Option Nat :=
  match reg with
  | "r0" => some 0b00000000
  | "r1" => some 0b00001000
  | "r2" => some 0b00010000
  | "r3" => some 0b00011000
  | _ => none

/-- `fn special_to_bits(reg: &str) -> Option<u8>` — extended/special register:
general registers as in `src_to_bits`, special registers with bit 0 set and a
2-bit index in bits 3–4. -/
def special_to_bits (reg : String) : Option Nat :=
  match reg with
  | "r0" => some 0b00000000
  | "r1" => some 0b00001000
  | "r2" => some 0b00010000
  | "r3" => some 0b00011000
  | "pc" => some 0b00000001
  | "adr" => some 0b00001001
  | "sp" => some 0b00010001
  | "sr" => some 0b00011001
  | _ => none

/-- `fn half_imm_to_bits(reg: &str) -> Option<u8>` — small immediate `1`..`4`,
encoded as (value − 1) in bits 3–4. -/
def half_imm_to_bits (reg : String) : Option Nat :=
  match reg with
  | "1" => some 0b00000000
  | "2" => some 0b00001000
  | "3" => some 0b00010000
  | "4" => some 0b00011000
  | _ => none

/-- `fn imm_to_bits(reg: &str) -> Option<u8>` — 4-bit immediate, decimal
`0`..`15` or binary alias `0b0000`..`0b1111`, value in the low nibble. -/
def imm_to_bits (reg : String) : Option Nat :=
  match reg with
  | "0" | "0b0000" => some 0b00000000
  | "1" | "0b0001" => some 0b00000001
  | "2" | "0b0010" => some 0b00000010
  | "3" | "0b0011" => some 0b00000011
  | "4" | "0b0100" => some 0b00000100
  | "5" | "0b0101" => some 0b00000101
  | "6" | "0b0110" => some 0b00000110
  | "7" | "0b0111" => some 0b00000111
  | "8" | "0b1000" => some 0b00001000
  | "9" | "0b1001" => some 0b00001001
  | "10" | "0b1010" => some 0b00001010
  | "11" | "0b1011" => some 0b00001011
  | "12" | "0b1100" => some 0b00001100
  | "13" | "0b1101" => some 0b00001101
  | "14" | "0b1110" => some 0b00001110
  | "15" | "0b1111" => some 0b00001111
  | _ => none

/-- `fn status_to_bits(reg: &str) -> Option<u8>` — 4-character `0`/`1` status
pattern, value in the low nibble, most-significant character first. -/
def status_to_bits (reg : String) : Option Nat :=
  match reg with
  | "0000" => some 0b00000000
  | "0001" => some 0b00000001
  | "0010" => some 0b00000010
  | "0011" => some 0b00000011
  | "0100" => some 0b00000100
  | "0101" => some 0b00000101
  | "0110" => some 0b00000110
  | "0111" => some 0b00000111
  | "1000" => some 0b00001000
  | "1001" => some 0b00001001
  | "1010" => some 0b00001010
  | "1011" => some 0b00001011
  | "1100" => some 0b00001100
  | "1101" => some 0b00001101
  | "1110" => some 0b00001110
  | "1111" => some 0b00001111
  | _ => none

/-- `fn dst_to_bits(reg: &str) -> Option<u8>` — destination register, 2-bit
index in bits 1–2. -/
def dst_to_bits (reg : String) : Option Nat :=
  match reg with
  | "r0" => some 0b00000000
  | "r1" => some 0b00000010
  | "r2" => some 0b00000100
  | "r3" => some 0b00000110
  | _ => none

/-- The accumulator-style core of Rust's `str::split_whitespace`: walk the
characters, collecting the current (reversed) token in `acc`; whitespace ends
a token, empty tokens are dropped. -/
def split_ws_aux : List Char → List Char → List (List Char)
  | acc, [] => if acc = [] then [] else [acc.reverse]
  | acc, c :: rest =>
    if c.isWhitespace then
      if acc = [] then split_ws_aux [] rest
      else acc.reverse :: split_ws_aux [] rest
    else split_ws_aux (c :: acc) rest

/-- `line.split_whitespace().collect_vec()` — whitespace-delimited tokens,
empty tokens dropped. -/
def split_whitespace (line : String) : List String :=
  (split_ws_aux [] line.data).map String.mk

/-- The instruction table of `fn parse_instr` — the `match` over the token
slice.  Rust's `?` on a field encoder becomes `Option.bind` / `Option.map`. -/
def parse_tokens : List String → Option Nat
  -- Arithmetic
  | ["sub", src] => (src_to_bits src).map (fun v => 0b00000000 ||| v)
  | ["sbc", src] => (src_to_bits src).map (fun v => 0b00000001 ||| v)
  | ["cmp", src] => (src_to_bits src).map (fun v => 0b00000010 ||| v)
  | ["cpc", src] => (src_to_bits src).map (fun v => 0b00000011 ||| v)
  | ["add", src] => (src_to_bits src).map (fun v => 0b00000100 ||| v)
  | ["adc", src] => (src_to_bits src).map (fun v => 0b00000101 ||| v)
  | ["mul", src] => (src_to_bits src).map (fun v => 0b00000110 ||| v)
  | ["div", src] => (src_to_bits src).map (fun v => 0b00000111 ||| v)
  -- Logic
  | ["lsl", half_imm] => (half_imm_to_bits half_imm).map (fun v => 0b00100000 ||| v)
  | ["rol", half_imm] => (half_imm_to_bits half_imm).map (fun v => 0b00100001 ||| v)
  | ["lsr", half_imm] => (half_imm_to_bits half_imm).map (fun v => 0b00100010 ||| v)
  | ["ror", half_imm] => (half_imm_to_bits half_imm).map (fun v => 0b00100011 ||| v)
  | ["and", reg] => (src_to_bits reg).map (fun v => 0b00100100 ||| v)
  | ["or", reg] => (src_to_bits reg).map (fun v => 0b00100101 ||| v)
  | ["xor", reg] => (src_to_bits reg).map (fun v => 0b00100110 ||| v)
  | ["neg"] => some 0b00100111
  | ["not"] => some 0b00101111
  | ["inc"] => some 0b00110111
  | ["dec"] => some 0b00111111
  -- Store/load
  | ["lds", imm] => (imm_to_bits imm).map (fun v => 0b01000000 ||| v)
  | ["sts", imm] => (imm_to_bits imm).map (fun v => 0b01010000 ||| v)
  -- Immediate to A
  | ["stl", imm] => (imm_to_bits imm).map (fun v => 0b10000000 ||| v)
  | ["sth", imm] => (imm_to_bits imm).map (fun v => 0b10010000 ||| v)
  -- Immediate to addr
  | ["sdl", imm] => (imm_to_bits imm).map (fun v => 0b10100000 ||| v)
  | ["sdh", imm] => (imm_to_bits imm).map (fun v => 0b10110000 ||| v)
  -- Jump
  | ["brvs"] => some 0b11000000
  | ["jmp"] => some 0b11000001
  | ["brcs"] => some 0b11000010
  | ["brcc"] => some 0b11000011
  | ["breq"] => some 0b11000100
  | ["brne"] => some 0b11000101
  | ["brns"] => some 0b11000110
  | ["brnc"] => some 0b11000111
  | ["ssr", status] => (status_to_bits status).map (fun v => 0b11010000 ||| v)
  | ["mov", src, dst] =>
    (special_to_bits src).bind (fun a =>
      (dst_to_bits dst).map (fun b => 0b11100000 ||| a ||| b))
  | _ => none

/-- `fn parse_instr(line: &str) -> Option<u8>`. -/
def parse_instr (line : String) : Option Nat :=
  parse_tokens (split_whitespace line)

/-- The character-level core of Rust's
`line.split_once("//").map(|x| x.0).unwrap_or(line)`: the prefix of the line
before the first occurrence of the two-character marker `//` (the whole line
when the marker is absent). -/
def strip_comment_chars : List Char → List Char
  | [] => []
  | a :: rest =>
    if a = '/' ∧ rest.head? = some '/' then []
    else a :: strip_comment_chars rest

/-- Comment stripping as performed by `main` on each source line. -/
def strip_comment (line : String) : String :=
  String.mk (strip_comment_chars line.data)

/-- Whether a character list contains the comment marker `//` as a contiguous
substring. -/
def has_marker : List Char → Bool
  | [] => false
  | a :: rest => (a = '/' && rest.head? = some '/') || has_marker rest

/-- Outcome of a run of `main`'s encoding loop.

* `ok rom` — every line encoded and was stored; `main` goes on to create the
  output file and write the placement commands derived from `rom`.
* `diag i line` — the line at 0-based index `i` failed to encode; `main`
  prints `"Line {i} does not contain a valid instruction `{line}`."` to
  stderr (with `line` the verbatim source line) and returns before the output
  file is created, so no output exists.
* `panic` — the statement `opcodes[i] = v` was reached with `i` out of range
  (index ≥ 128): Rust's `Vec` indexing panics, aborting the process before
  the output file is created. -/
inductive RunResult where
  | ok (rom : List Nat)
  | diag (i : Nat) (line : String)
  | panic
deriving DecidableEq

/-- The `for (i, line) in input.lines().enumerate()` loop of `main`:
`opcodes` is the ROM image built so far, `i` the index of the next line. -/
def processLines (opcodes : List Nat) (i : Nat) : List String → RunResult
  | [] => RunResult.ok opcodes
  | line :: rest =>
    match parse_instr (strip_comment line) with
    | some v =>
      if i < opcodes.length then processLines (opcodes.set i v) (i + 1) rest
      else RunResult.panic
    | none => RunResult.diag i line

/-- The encoding phase of `main`: a zero-filled 128-byte image, filled line by
line. -/
def run (lines : List String) : RunResult :=
  processLines (List.replicate ROM_BYTES 0) 0 lines

-- Layout constants of the spatial ROM layout codec.  The grid sizes are
-- loop bounds (`Nat` here); strides and offsets are coordinates (`isize` in
-- the source, `Int` here).

/-- `const SIZE_X: isize = 32;` -/
def SIZE_X : Nat := 32
/-- `const STRIDE_X: isize = -2;` -/
def STRIDE_X : Int := -2
/-- `const OFFSET_X: isize = -2;` -/
def OFFSET_X : Int := -2
/-- `const SIZE_Y: isize = 4;` -/
def SIZE_Y : Nat := 4
/-- `const STRIDE_Y: isize = 4;` -/
def STRIDE_Y : Int := 4
/-- `const OFFSET_Y: isize = -15;` -/
def OFFSET_Y : Int := -15
/-- `const STRIDE_Z: isize = -2;` -/
def STRIDE_Z : Int := -2
/-- `const OFFSET_Z: isize = 0;` -/
def OFFSET_Z : Int := 0

/-- The iterator at the heart of `fn write_byte`:
`(0..8).map(|z| z * STRIDE_Z + OFFSET_Z)` zipped with
`(0..8).rev().map(|m| (b >> m) & 1 != 0)` — the z-coordinate and the bit
value for each of the byte's 8 bits, most-significant bit first. -/
def byte_bits (b : Nat) : List (Int × Bool) :=
  List.zip ((List.range 8).map (fun z => (z : Int) * STRIDE_Z + OFFSET_Z))
    (((List.range 8).reverse).map (fun m => (b >>> m) &&& 1 != 0))

/-- The 8 command lines produced by `fn write_byte(x, y, b)`, one per bit
(each line carries its trailing newline, as in the Rust `format!` strings). -/
def write_byte_entries (x y : Int) (b : Nat) : List String :=
  (byte_bits b).map (fun zs =>
    if zs.2 then
      "setblock ~" ++ toString x ++ " ~" ++ toString y ++ " ~" ++ toString zs.1
        ++ " minecraft:redstone_wall_torch[facing=east] replace\n"
    else
      "setblock ~" ++ toString x ++ " ~" ++ toString y ++ " ~" ++ toString zs.1
        ++ " minecraft:air replace\n")

/-- `fn write_byte(x: isize, y: isize, b: u8) -> String` — the 8 command
lines collected into one string. -/
def write_byte (x y : Int) (b : Nat) : String :=
  String.join (write_byte_entries x y b)

/-- The emission loop of `main` as a list of placement commands
`(x, y, z, set)`: outer loop over rows (`y`), inner loop over columns (`x`),
with the running byte index `i = row * 32 + col`, and per byte the 8 bits of
`byte_bits`.  This is the Placement Command sequence of the spec's data
model; `output_entries` below renders it to the textual wire format. -/
def rom_placements (rom : List Nat) : List (Int × Int × Int × Bool) :=
  (List.range SIZE_Y).flatMap (fun row =>
    (List.range SIZE_X).flatMap (fun col =>
      (byte_bits (rom.getD (row * SIZE_X + col) 0)).map (fun zs =>
        ((col : Int) * STRIDE_X + OFFSET_X,
         (row : Int) * STRIDE_Y + OFFSET_Y, zs.1, zs.2))))

/-- The command lines written by `main`'s emission loop, in output order. -/
def output_entries (rom : List Nat) : List String :=
  (List.range SIZE_Y).flatMap (fun row =>
    (List.range SIZE_X).flatMap (fun col =>
      write_byte_entries ((col : Int) * STRIDE_X + OFFSET_X)
        ((row : Int) * STRIDE_Y + OFFSET_Y)
        (rom.getD (row * SIZE_X + col) 0)))

/-- The closed-form coordinate of the bit at ROM byte index `i`, bit
enumeration index `m` (0 = most significant): the coordinate the emission
loop drives when it reaches that bit. -/
def bit_coord (i m : Nat) : Int × Int × Int :=
  (((i % 32 : Nat) : Int) * STRIDE_X + OFFSET_X,
   ((i / 32 : Nat) : Int) * STRIDE_Y + OFFSET_Y,
   (m : Int) * STRIDE_Z + OFFSET_Z)

/-!
## Sanity checks

Concrete evaluations of the embedded definitions, matching hand-evaluations
of the Rust source.
-/

example : parse_instr "add r1" = some 0b00001100 := by decide
example : parse_instr "jmp" = some 0b11000001 := by decide
example : parse_instr "mov r2 r0" = some 0b11110000 := by decide
example : parse_instr "foo bar" = none := by decide
example : parse_instr "" = none := by decide
example : strip_comment "add r1 // comment" = "add r1 " := by decide
example : strip_comment "add r1" = "add r1" := by decide
example : run ["add r1"] =
    RunResult.ok (0b00001100 :: List.replicate 127 0) := by decide
example : run ["foo bar"] = RunResult.diag 0 "foo bar" := by decide
example : (rom_placements (List.replicate 128 0)).length = 1024 := by decide
example : (rom_placements []).headD (0, 0, 0, true) = (-2, -15, 0, false) := by
  decide

/-!
## C1 — end-to-end ROM image of `["add r1", "jmp", "mov r2 r0"]`

Under the table in `parse_instr`, `add` carries the low-bit constant
`0b000_00_100`, so `"add r1"` encodes to `0b000_01_100`, not the claimed
`0b000_01_000` (that value is `src_to_bits "r1"` with the `add` constant
dropped).  The other two bytes are as claimed.
-/

/-- C1 (counterexample): the claimed ROM image — first byte `0b000_01_000`,
then `0b110_00_001`, then `0b111_00_00_0 ||| special_to_bits "r2" |||
dst_to_bits "r0"`, then 125 zero bytes — is not what the program produces
for the source lines `["add r1", "jmp", "mov r2 r0"]`. -/
theorem C1_counterexample :
    run ["add r1", "jmp", "mov r2 r0"] ≠
      RunResult.ok (0b00001000 :: 0b11000001 ::
        (0b11100000 ||| 0b00010000 ||| 0b00000000) :: List.replicate 125 0) := by
  decide

/-- C1 (amended): encoding the source lines `["add r1", "jmp", "mov r2 r0"]`
yields a ROM image whose first three bytes are `0b000_01_100`, `0b110_00_001`
and `0b111_00_00_0 ||| special_to_bits "r2" ||| dst_to_bits "r0"`
(with `special_to_bits "r2" = 0b000_10_000` and `dst_to_bits "r0" = 0`),
followed by 125 zero bytes. -/
theorem C1_end_to_end :
    special_to_bits "r2" = some 0b00010000 ∧
    dst_to_bits "r0" = some 0b00000000 ∧
    run ["add r1", "jmp", "mov r2 r0"] =
      RunResult.ok (0b00001100 :: 0b11000001 ::
        (0b11100000 ||| 0b00010000 ||| 0b00000000) :: List.replicate 125 0) := by
  refine ⟨rfl, rfl, by decide⟩

/-!
## C4 — domain and encoding of the extended/special register field

`special_to_bits` accepts the four general registers and **four** named
special registers (`pc`, `adr`, `sp`, `sr`), not three as claimed.  The
special-register encodings do have the claimed shape: bit 0 (the low-order
tag bit) set, plus a 2-bit index among the specials in bits 3–4.
-/

/-- C4 (counterexample): `special_to_bits` accepts four pairwise-distinct
tokens outside `r0`..`r3` (`pc`, `adr`, `sp`, `sr`), so its domain is not
`r0`..`r3` plus only 3 named special registers. -/
theorem C4_counterexample :
    (special_to_bits "pc").isSome = true ∧
    (special_to_bits "adr").isSome = true ∧
    (special_to_bits "sp").isSome = true ∧
    (special_to_bits "sr").isSome = true ∧
    ("pc" ≠ "adr" ∧ "pc" ≠ "sp" ∧ "pc" ≠ "sr" ∧
     "adr" ≠ "sp" ∧ "adr" ≠ "sr" ∧ "sp" ≠ "sr") ∧
    ("pc" ≠ "r0" ∧ "pc" ≠ "r1" ∧ "pc" ≠ "r2" ∧ "pc" ≠ "r3" ∧
     "adr" ≠ "r0" ∧ "adr" ≠ "r1" ∧ "adr" ≠ "r2" ∧ "adr" ≠ "r3" ∧
     "sp" ≠ "r0" ∧ "sp" ≠ "r1" ∧ "sp" ≠ "r2" ∧ "sp" ≠ "r3" ∧
     "sr" ≠ "r0" ∧ "sr" ≠ "r1" ∧ "sr" ≠ "r2" ∧ "sr" ≠ "r3") := by
  decide

/-- C4 (amended): the extended/special register field encoder accepts exactly
the tokens `r0`..`r3` plus the **4** named special registers `pc`, `adr`,
`sp`, `sr`, and nothing else; the general registers get the general-register
encoding, and each special register is encoded with the distinguishing
low-order tag bit (bit 0) set plus a 2-bit index among the specials in
bits 3–4 (`pc` ↦ 0, `adr` ↦ 1, `sp` ↦ 2, `sr` ↦ 3). -/
theorem C4_special_register_domain :
    (∀ s, (special_to_bits s).isSome = true ↔
      s ∈ ["r0", "r1", "r2", "r3", "pc", "adr", "sp", "sr"]) ∧
    (∀ s, s ∈ (["r0", "r1", "r2", "r3"] : List String) →
      special_to_bits s = src_to_bits s) ∧
    special_to_bits "pc" = some (0 * 8 + 1) ∧
    special_to_bits "adr" = some (1 * 8 + 1) ∧
    special_to_bits "sp" = some (2 * 8 + 1) ∧
    special_to_bits "sr" = some (3 * 8 + 1) ∧
    (∀ s v, special_to_bits s = some v →
      s ∈ (["pc", "adr", "sp", "sr"] : List String) → v &&& 1 = 1) := by
  refine ⟨fun s => ?_, fun s hs => ?_, rfl, rfl, rfl, rfl, fun s v h hs => ?_⟩
  · unfold special_to_bits
    split <;> simp_all
  · fin_cases hs <;> rfl
  · fin_cases hs <;> simp_all [special_to_bits] <;> omega

/-- Witness for C4: the amended theorem applied at the concrete token
`"adr"`, whose encoding has the low tag bit set. -/
theorem C4_witness : (0b00001001 : Nat) &&& 1 = 1 :=
  C4_special_register_domain.2.2.2.2.2.2 "adr" 0b00001001 rfl (by decide)

/-!
## C10 — blank or comment-only lines are fatal parse failures

An empty or all-whitespace line tokenizes to the empty token sequence,
which matches no instruction shape, so `parse_instr` returns `none` and the
run aborts with a diagnostic instead of skipping the line or emitting a
zero byte for it.
-/

/-- Tokenizing an all-whitespace character list yields no tokens. -/
lemma split_ws_aux_all_ws (cs : List Char)
    (h : cs.all Char.isWhitespace = true) : split_ws_aux [] cs = [] := by
  induction cs with
  | nil => rfl
  | cons c rest ih =>
    simp only [List.all_cons, Bool.and_eq_true] at h
    simp [split_ws_aux, h.1, ih h.2]

/-- A line whose text is empty or all whitespace fails to parse. -/
lemma parse_all_ws_none (line : String)
    (h : line.data.all Char.isWhitespace = true) : parse_instr line = none := by
  unfold parse_instr split_whitespace
  rw [split_ws_aux_all_ws line.data h]
  rfl

/-- A successful run parses every line: if `processLines` returns `ok`, each
line's comment-stripped text was accepted by `parse_instr`. -/
lemma processLines_ok_all (lines : List String) :
    ∀ (ops : List Nat) (i : Nat) (rom : List Nat),
      processLines ops i lines = RunResult.ok rom →
      ∀ line ∈ lines, (parse_instr (strip_comment line)).isSome = true := by
  induction lines with
  | nil => simp
  | cons l rest ih =>
    intro ops i rom h line hmem
    rcases hp : parse_instr (strip_comment l) with _ | v
    · simp only [processLines, hp] at h
      exact RunResult.noConfusion h
    · simp only [processLines, hp] at h
      by_cases hi : i < ops.length
      · rw [if_pos hi] at h
        rcases List.mem_cons.mp hmem with rfl | hmem'
        · simp [hp]
        · exact ih _ _ _ h line hmem'
      · rw [if_neg hi] at h
        exact RunResult.noConfusion h

/-- C10: a source line whose comment-stripped text is empty or all whitespace
(e.g. a blank line or a comment-only line) fails to encode — `parse_instr`
returns `none` — and therefore no run containing such a line can complete
successfully: blank lines are fatal malformed-instruction errors, not skipped
lines and not zero-byte no-ops. -/
theorem C10_blank_lines_fatal :
    (∀ line : String,
      (strip_comment line).data.all Char.isWhitespace = true →
      parse_instr (strip_comment line) = none) ∧
    (∀ (lines : List String) (line : String), line ∈ lines →
      (strip_comment line).data.all Char.isWhitespace = true →
      ∀ rom, run lines ≠ RunResult.ok rom) := by
  refine ⟨fun line h => parse_all_ws_none _ h, ?_⟩
  intro lines line hmem hws rom hrun
  have h1 := processLines_ok_all lines _ _ _ hrun line hmem
  rw [parse_all_ws_none _ hws] at h1
  exact Bool.noConfusion h1

/-- Witness for C10: the comment-only line `"   // note"` at a concrete
input. -/
theorem C10_witness :
    (strip_comment "   // note").data.all Char.isWhitespace = true ∧
    parse_instr (strip_comment "   // note") = none ∧
    run ["   // note"] ≠ RunResult.ok (List.replicate 128 0) :=
  ⟨by decide, C10_blank_lines_fatal.1 "   // note" (by decide),
   C10_blank_lines_fatal.2 ["   // note"] "   // note" (by decide) (by decide)
     (List.replicate 128 0)⟩

/-!
## C5 and C2 — behavior of the driver loop at failures and past capacity

`main` iterates `opcodes[i] = v` over the parsed lines.  A parse failure at
index `j` is reported (with the 0-based index and the verbatim line) and the
run stops before the output file is created — but only if the loop actually
reaches index `j`: a *valid* line at index 128 makes `opcodes[128] = v`
panic first (`Vec` indexing is bounds-checked), so a failure at index ≥ 129
is never reported, and excess lines are not silently ignored.
-/

/-- If the first `j` lines parse, line `j` does not, and the ROM capacity is
not exhausted before index `j`, the loop reports a diagnostic carrying the
absolute index `i + j` and the verbatim line. -/
lemma processLines_diag (lines : List String) :
    ∀ (ops : List Nat) (i j : Nat), j < lines.length → i + j ≤ ops.length →
      (∀ k, k < j →
        (parse_instr (strip_comment (lines.getD k ""))).isSome = true) →
      parse_instr (strip_comment (lines.getD j "")) = none →
      processLines ops i lines = RunResult.diag (i + j) (lines.getD j "") := by
  induction lines with
  | nil => intro ops i j hj _ _ _; exact absurd hj (by simp)
  | cons l rest ih =>
    intro ops i j hj hcap hok hbad
    rcases j with _ | j'
    · simp only [List.getD_cons_zero] at hbad
      simp [processLines, hbad]
    · have h0 := hok 0 (Nat.succ_pos j')
      simp only [List.getD_cons_zero] at h0
      obtain ⟨v, hv⟩ := Option.isSome_iff_exists.mp h0
      have hi : i < ops.length := by omega
      simp only [processLines, hv, if_pos hi]
      have hlen : (i + 1) + j' ≤ (ops.set i v).length := by
        rw [List.length_set]; omega
      have hrec := ih (ops.set i v) (i + 1) j'
        (by simpa using Nat.lt_of_succ_lt_succ hj) hlen
        (fun k hk => by
          have := hok (k + 1) (Nat.succ_lt_succ hk)
          simpa using this)
        (by simpa using hbad)
      rw [hrec]
      have : (i + 1) + j' = i + (j' + 1) := by omega
      rw [this]
      simp

/-- C5 (counterexample): with 129 valid `jmp` lines followed by `"foo"`, the
first line that fails to encode is line 129 — but the program panics on the
out-of-range write `opcodes[128] = v` before reaching it, so no diagnostic
naming index 129 and text `"foo"` is emitted. -/
theorem C5_counterexample :
    run (List.replicate 129 "jmp" ++ ["foo"]) = RunResult.panic ∧
    RunResult.panic ≠ RunResult.diag 129 "foo" := by
  exact ⟨by decide, by decide⟩

/-- C5 (amended): on the first line that fails to encode, **provided at most
128 lines precede it** (so the loop reaches it before any out-of-range
write), the program emits exactly one diagnostic naming that line's 0-based
index and its verbatim text, and terminates without creating or writing any
output file (a `RunResult.diag` outcome returns before the output file is
opened, so no partial output exists). -/
theorem C5_first_failure_diagnostic (lines : List String) (j : Nat)
    (hj : j < lines.length) (hcap : j ≤ ROM_BYTES)
    (hok : ∀ k, k < j →
      (parse_instr (strip_comment (lines.getD k ""))).isSome = true)
    (hbad : parse_instr (strip_comment (lines.getD j "")) = none) :
    run lines = RunResult.diag j (lines.getD j "") := by
  have h := processLines_diag lines (List.replicate ROM_BYTES 0) 0 j hj
    (by simpa using hcap) hok hbad
  simpa using h

/-- Witness for C5: the failing single-line input `["foo"]`. -/
theorem C5_witness :
    (0 < 1 ∧ 0 ≤ ROM_BYTES ∧ parse_instr (strip_comment "foo") = none) ∧
    run ["foo"] = RunResult.diag 0 "foo" :=
  ⟨⟨by decide, by decide, by decide⟩,
   C5_first_failure_diagnostic ["foo"] 0 (by decide) (by decide)
     (fun k hk => absurd hk (Nat.not_lt_zero k)) (by decide)⟩

/-- If the first `j + 1` lines all parse but the ROM capacity runs out at
absolute index `i + j = ops.length`, the loop reaches the bounds-checked
write with an out-of-range index and panics. -/
lemma processLines_panic (lines : List String) :
    ∀ (ops : List Nat) (i j : Nat), i + j = ops.length → j < lines.length →
      (∀ k, k ≤ j →
        (parse_instr (strip_comment (lines.getD k ""))).isSome = true) →
      processLines ops i lines = RunResult.panic := by
  induction lines with
  | nil => intro ops i j _ hj _; exact absurd hj (by simp)
  | cons l rest ih =>
    intro ops i j hcap hj hok
    have h0 := hok 0 (Nat.zero_le j)
    simp only [List.getD_cons_zero] at h0
    obtain ⟨v, hv⟩ := Option.isSome_iff_exists.mp h0
    rcases j with _ | j'
    · have hi : ¬ i < ops.length := by omega
      simp [processLines, hv, if_neg hi]
    · have hi : i < ops.length := by omega
      simp only [processLines, hv, if_pos hi]
      exact ih (ops.set i v) (i + 1) j'
        (by rw [List.length_set]; omega)
        (by simpa using Nat.lt_of_succ_lt_succ hj)
        (fun k hk => by
          have := hok (k + 1) (Nat.succ_le_succ hk)
          simpa using this)

/-- C2 (counterexample): 129 valid `jmp` lines do not produce the output of
the 128-line prefix — the program panics on the out-of-range write
`opcodes[128] = v`, while the 128-line prefix alone succeeds. -/
theorem C2_counterexample :
    run (List.replicate 129 "jmp") = RunResult.panic ∧
    run (List.replicate 128 "jmp") =
      RunResult.ok (List.replicate 128 0b11000001) ∧
    RunResult.panic ≠ RunResult.ok (List.replicate 128 0b11000001) := by
  exact ⟨by decide, by decide, by decide⟩

/-- C2 (amended): for every source input whose line count exceeds 128 and
whose first 129 lines are all valid instructions, the program does **not**
silently ignore the lines beyond index 127: it attempts the out-of-range
write `opcodes[128] = v` and panics, producing no output at all. -/
theorem C2_capacity_overflow_panics (lines : List String)
    (hlen : ROM_BYTES < lines.length)
    (hok : ∀ k, k ≤ ROM_BYTES →
      (parse_instr (strip_comment (lines.getD k ""))).isSome = true) :
    run lines = RunResult.panic :=
  processLines_panic lines (List.replicate ROM_BYTES 0) 0 ROM_BYTES
    (by simp) hlen hok

/-- Witness for C2: 130 valid `jmp` lines. -/
theorem C2_witness :
    (ROM_BYTES < (List.replicate 130 "jmp").length ∧
     (∀ k, k ≤ ROM_BYTES →
       (parse_instr
         (strip_comment ((List.replicate 130 "jmp").getD k ""))).isSome = true)) ∧
    run (List.replicate 130 "jmp") = RunResult.panic :=
  ⟨⟨by decide, by decide⟩,
   C2_capacity_overflow_panics (List.replicate 130 "jmp") (by decide) (by decide)⟩

/-!
## C8 — encoding is insensitive to a trailing comment

`main` strips everything from the first `//` onward before calling
`parse_instr`.  The hypothesis `has_marker (l.data ++ ['/']) = false` says
the kept text contains no `//` and does not end in a lone `/` (which would
merge with the appended marker into an earlier occurrence).
-/

/-- A list without the marker is stripped to itself. -/
lemma strip_comment_chars_no_marker (l : List Char)
    (h : has_marker l = false) : strip_comment_chars l = l := by
  induction l with
  | nil => rfl
  | cons a rest ih =>
    simp only [has_marker, Bool.or_eq_false_iff, Bool.and_eq_false_iff] at h
    have hcond : ¬ (a = '/' ∧ rest.head? = some '/') := by
      rcases h.1 with h1 | h1 <;> simp_all
    simp [strip_comment_chars, if_neg hcond, ih h.2]

/-- Appending `//` and arbitrary text after marker-free text strips back to
that text. -/
lemma strip_comment_chars_append (l c : List Char)
    (h : has_marker (l ++ ['/']) = false) :
    strip_comment_chars (l ++ '/' :: '/' :: c) = l := by
  induction l with
  | nil => simp [strip_comment_chars]
  | cons a rest ih =>
    simp only [List.cons_append, has_marker, Bool.or_eq_false_iff,
      Bool.and_eq_false_iff] at h
    have hcond : ¬ (a = '/' ∧ (rest ++ '/' :: '/' :: c).head? = some '/') := by
      rcases rest with _ | ⟨r, rs⟩ <;> rcases h.1 with h1 | h1 <;> simp_all
    simp only [List.cons_append, strip_comment_chars, List.append_eq]
    rw [if_neg hcond, ih h.2]

/-- A marker-free prefix of a marker-free-plus-`/` list. -/
lemma has_marker_front (l : List Char)
    (h : has_marker (l ++ ['/']) = false) : has_marker l = false := by
  induction l with
  | nil => rfl
  | cons a rest ih =>
    simp only [List.cons_append, has_marker, Bool.or_eq_false_iff,
      Bool.and_eq_false_iff] at h ⊢
    refine ⟨?_, ih h.2⟩
    rcases rest with _ | ⟨r, rs⟩
    · simp
    · rcases h.1 with h1 | h1 <;> simp_all

/-- C8: encoding is insensitive to a trailing comment.  For any kept text `l`
(no `//` inside, not ending in `/`) and any comment text `c`, the line
`l ++ "//" ++ c` encodes exactly as `l` alone: only the text before the
first `//` is used.  In particular `"add r1 // comment"` and `"add r1"`
encode identically. -/
theorem C8_comment_insensitive :
    (∀ l c : String, has_marker (l.data ++ ['/']) = false →
      parse_instr (strip_comment (l ++ "//" ++ c)) =
        parse_instr (strip_comment l)) ∧
    parse_instr (strip_comment "add r1 // comment") =
      parse_instr (strip_comment "add r1") := by
  refine ⟨fun l c h => ?_, by decide⟩
  have hd : (l ++ "//" ++ c).data = l.data ++ '/' :: '/' :: c.data := by
    simp [String.data_append]
  unfold strip_comment
  rw [hd, strip_comment_chars_append l.data c.data h,
    strip_comment_chars_no_marker l.data (has_marker_front l.data h)]

/-- Witness for C8: the spec's example line, written as kept text plus
comment. -/
theorem C8_witness :
    has_marker (("add r1 ").data ++ ['/']) = false ∧
    parse_instr (strip_comment ("add r1 " ++ "//" ++ " comment")) =
      parse_instr (strip_comment "add r1 ") :=
  ⟨by decide, C8_comment_insensitive.1 "add r1 " " comment" (by decide)⟩

/-!
## C9 — grammar of the output stream

Every line written by the emission loop is one of the two `setblock`
command forms, with the coordinates rendered as signed decimal integers
(`toString : Int → String` is Rust's `Display` for `isize`) and the two
fixed block identifiers.
-/

/-- C9: every line of the output stream (each entry of `output_entries`
carries its terminating newline) is exactly one of the two command forms:
the marker form `setblock ~x ~y ~z minecraft:redstone_wall_torch[facing=east]
replace` when the bit is set, or the absence form `setblock ~x ~y ~z
minecraft:air replace` when it is clear, with `x`, `y`, `z` signed decimal
integers. -/
theorem C9_output_line_grammar (rom : List Nat) (s : String)
    (hs : s ∈ output_entries rom) :
    ∃ x y z : Int,
      s = "setblock ~" ++ toString x ++ " ~" ++ toString y ++ " ~" ++
            toString z ++
            " minecraft:redstone_wall_torch[facing=east] replace\n" ∨
      s = "setblock ~" ++ toString x ++ " ~" ++ toString y ++ " ~" ++
            toString z ++ " minecraft:air replace\n" := by
  simp only [output_entries, write_byte_entries, List.mem_flatMap,
    List.mem_map] at hs
  obtain ⟨row, _, col, _, zs, _, hsdef⟩ := hs
  refine ⟨(col : Int) * STRIDE_X + OFFSET_X,
    (row : Int) * STRIDE_Y + OFFSET_Y, zs.1, ?_⟩
  cases hb : zs.2 <;> rw [hb] at hsdef <;> simp only [if_true, if_false,
    Bool.false_eq_true, Bool.true_eq_false] at hsdef
  · exact Or.inr hsdef.symm
  · exact Or.inl hsdef.symm

/-- Witness for C9: the first output line for the all-zero image. -/
theorem C9_witness :
    ("setblock ~-2 ~-15 ~0 minecraft:air replace\n" ∈ output_entries []) ∧
    ∃ x y z : Int,
      "setblock ~-2 ~-15 ~0 minecraft:air replace\n" =
        "setblock ~" ++ toString x ++ " ~" ++ toString y ++ " ~" ++
          toString z ++
          " minecraft:redstone_wall_torch[facing=east] replace\n" ∨
      "setblock ~-2 ~-15 ~0 minecraft:air replace\n" =
        "setblock ~" ++ toString x ++ " ~" ++ toString y ++ " ~" ++
          toString z ++ " minecraft:air replace\n" :=
  ⟨by decide, C9_output_line_grammar []
    "setblock ~-2 ~-15 ~0 minecraft:air replace\n" (by decide)⟩

/-!
## C3 and C6 — the coordinate layout of the emission loop

The emission loop walks rows then columns (`i = row * 32 + col`) and, per
byte, the 8 bits most-significant first.  We first put `rom_placements`
into a flat closed form indexed by the linear byte index, then read off the
placement at output position `i * 8 + m`.
-/

/-- `byte_bits` in closed form: the entry at enumeration index `m` pairs
`z = m * STRIDE_Z + OFFSET_Z` with the bit `(b >>> (7 - m)) &&& 1`. -/
lemma byte_bits_eq (b : Nat) :
    byte_bits b = (List.range 8).map (fun (m : Nat) =>
      ((m : Int) * STRIDE_Z + OFFSET_Z, (b >>> (7 - m)) &&& 1 != 0)) := rfl

/-- Indexing a flattened list of 8-element blocks. -/
lemma getElem?_flatten_eight {α : Type} :
    ∀ (ls : List (List α)) (i m : Nat), (∀ l ∈ ls, l.length = 8) → m < 8 →
      i < ls.length → ls.flatten[i * 8 + m]? = ls[i]?.bind (fun l => l[m]?)
  | [], i, m, _, _, hi => absurd hi (by simp)
  | l :: rest, 0, m, hlen, hm, _ => by
    have hl : l.length = 8 := hlen l (List.mem_cons_self l rest)
    rw [List.flatten_cons, List.getElem?_append_left (by omega)]
    simp
  | l :: rest, i + 1, m, hlen, hm, hi => by
    have hl : l.length = 8 := hlen l (List.mem_cons_self l rest)
    rw [List.flatten_cons, List.getElem?_append_right (by omega)]
    have harith : (i + 1) * 8 + m - l.length = i * 8 + m := by omega
    rw [harith,
      getElem?_flatten_eight rest i m
        (fun x hx => hlen x (List.mem_cons_of_mem l hx)) hm
        (by simpa using Nat.lt_of_succ_lt_succ hi)]
    simp

/-- Splitting a `flatMap` over `range (a * b)` into nested row/column
loops. -/
lemma range_flatMap_mul {α : Type} (a b : Nat) (g : Nat → List α) :
    (List.range (a * b)).flatMap g =
      (List.range a).flatMap (fun r =>
        (List.range b).flatMap (fun c => g (r * b + c))) := by
  induction a with
  | zero => simp
  | succ a ih =>
    have hab : (a + 1) * b = a * b + b := by ring
    rw [hab, List.range_add, List.flatMap_append, ih, List.range_succ,
      List.flatMap_append, List.flatMap_map]
    simp

/-- The emission sequence in flat closed form: placement number `i * 8 + m`
addresses byte `i` of the image at column `i % 32`, row `i / 32`. -/
lemma rom_placements_eq (rom : List Nat) :
    rom_placements rom = (List.range 128).flatMap (fun (i : Nat) =>
      (List.range 8).map (fun (m : Nat) =>
        (((i % 32 : Nat) : Int) * STRIDE_X + OFFSET_X,
         ((i / 32 : Nat) : Int) * STRIDE_Y + OFFSET_Y,
         (m : Int) * STRIDE_Z + OFFSET_Z,
         (rom.getD i 0 >>> (7 - m)) &&& 1 != 0))) := by
  rw [show (128 : Nat) = 4 * 32 from rfl, range_flatMap_mul 4 32]
  congr 1

/-- The placement command at output position `i * 8 + m` (byte index `i`,
bit enumeration index `m`). -/
lemma rom_placements_getElem (rom : List Nat) (i m : Nat)
    (hi : i < 128) (hm : m < 8) :
    (rom_placements rom)[i * 8 + m]? = some
      (((i % 32 : Nat) : Int) * STRIDE_X + OFFSET_X,
       ((i / 32 : Nat) : Int) * STRIDE_Y + OFFSET_Y,
       (m : Int) * STRIDE_Z + OFFSET_Z,
       (rom.getD i 0 >>> (7 - m)) &&& 1 != 0) := by
  rw [rom_placements_eq]
  simp only [List.flatMap]
  rw [getElem?_flatten_eight _ i m
    (fun l hl => by
      obtain ⟨j, hj, rfl⟩ := List.mem_map.mp hl
      simp) hm (by simpa using hi)]
  simp [List.getElem?_map, List.getElem?_range hi, List.getElem?_range hm]

/-- C3: the layout codec emits the placement command for bit `m` of ROM byte
`i` at position `i * 8 + m` of the output sequence (byte-index-then-bit-index
nested order), at coordinates `x = (i mod 32) * (-2) + (-2)`,
`y = (i div 32) * 4 + (-15)`, `z = m * (-2) + 0`, with set flag
`(byte >>> (7 - m)) &&& 1 ≠ 0`. -/
theorem C3_placement_coordinates (rom : List Nat) (i m : Nat)
    (hi : i < 128) (hm : m < 8) :
    (rom_placements rom)[i * 8 + m]? = some
      (((i % 32 : Nat) : Int) * (-2) + (-2),
       ((i / 32 : Nat) : Int) * 4 + (-15),
       (m : Int) * (-2) + 0,
       (rom.getD i 0 >>> (7 - m)) &&& 1 != 0) :=
  rom_placements_getElem rom i m hi hm

/-- Witness for C3: byte 33 (row 1, column 1), bit 2, of the empty (all-zero)
image. -/
theorem C3_witness :
    (33 < 128 ∧ 2 < 8) ∧
    (rom_placements [])[33 * 8 + 2]? = some
      (((33 % 32 : Nat) : Int) * (-2) + (-2),
       ((33 / 32 : Nat) : Int) * 4 + (-15),
       ((2 : Nat) : Int) * (-2) + 0,
       (([] : List Nat).getD 33 0 >>> (7 - 2)) &&& 1 != 0) :=
  ⟨⟨by decide, by decide⟩,
   C3_placement_coordinates [] 33 2 (by decide) (by decide)⟩

/-- The coordinate triple driven at output position `i * 8 + m` is exactly
`bit_coord i m`: `bit_coord` is the closed form of the loop coordinates. -/
lemma rom_placements_bit_coord (rom : List Nat) (i m : Nat)
    (hi : i < 128) (hm : m < 8) :
    ((rom_placements rom)[i * 8 + m]?).map
        (fun p => (p.1, p.2.1, p.2.2.1)) = some (bit_coord i m) := by
  rw [rom_placements_getElem rom i m hi hm]
  rfl

/-- C6: the map from (byte index, bit index) to the derived coordinate
triple is injective over all 128 × 8 = 1024 combinations: no two distinct
pairs are driven at the same physical position. -/
theorem C6_coordinates_injective (i1 m1 i2 m2 : Nat)
    (_hi1 : i1 < 128) (_hm1 : m1 < 8) (_hi2 : i2 < 128) (_hm2 : m2 < 8)
    (h : bit_coord i1 m1 = bit_coord i2 m2) : i1 = i2 ∧ m1 = m2 := by
  simp only [bit_coord, STRIDE_X, OFFSET_X, STRIDE_Y, OFFSET_Y, STRIDE_Z,
    OFFSET_Z, Prod.mk.injEq] at h
  obtain ⟨hx, hy, hz⟩ := h
  omega

/-- Witness for C6: the injectivity theorem applied at a concrete pair. -/
theorem C6_witness :
    (5 < 128 ∧ 3 < 8 ∧ 5 < 128 ∧ 3 < 8 ∧ bit_coord 5 3 = bit_coord 5 3) ∧
    (5 = 5 ∧ 3 = 3) :=
  ⟨⟨by decide, by decide, by decide, by decide, rfl⟩,
   C6_coordinates_injective 5 3 5 3 (by decide) (by decide) (by decide)
     (by decide) rfl⟩

/-!
## C7 — family tags and operand fields occupy disjoint bits

For each shape of the table in `parse_tokens`, the fixed constant OR'd into
the opcode and the bit patterns its field encoders can return have pairwise
empty bit overlap, so the OR never loses information.  The constants below
are exactly the per-shape constants of the table, each paired with the field
encoder(s) used by the shapes that carry it.
-/

/-- Possible outputs of `src_to_bits`. -/
lemma src_to_bits_range (s : String) (v : Nat) (h : src_to_bits s = some v) :
    v = 0 ∨ v = 8 ∨ v = 16 ∨ v = 24 := by
  unfold src_to_bits at h
  split at h <;> simp_all

/-- Possible outputs of `half_imm_to_bits`. -/
lemma half_imm_to_bits_range (s : String) (v : Nat)
    (h : half_imm_to_bits s = some v) : v = 0 ∨ v = 8 ∨ v = 16 ∨ v = 24 := by
  unfold half_imm_to_bits at h
  split at h <;> simp_all

/-- Possible outputs of `imm_to_bits`: the low nibble. -/
lemma imm_to_bits_range (s : String) (v : Nat) (h : imm_to_bits s = some v) :
    v < 16 := by
  unfold imm_to_bits at h
  split at h <;> simp_all <;> omega

/-- Possible outputs of `status_to_bits`: the low nibble. -/
lemma status_to_bits_range (s : String) (v : Nat)
    (h : status_to_bits s = some v) : v < 16 := by
  unfold status_to_bits at h
  split at h <;> simp_all <;> omega

/-- Possible outputs of `special_to_bits`: bits 0, 3 and 4. -/
lemma special_to_bits_range (s : String) (v : Nat)
    (h : special_to_bits s = some v) :
    v = 0 ∨ v = 8 ∨ v = 16 ∨ v = 24 ∨ v = 1 ∨ v = 9 ∨ v = 17 ∨ v = 25 := by
  unfold special_to_bits at h
  split at h <;> simp_all

/-- Possible outputs of `dst_to_bits`: bits 1 and 2. -/
lemma dst_to_bits_range (s : String) (v : Nat) (h : dst_to_bits s = some v) :
    v = 0 ∨ v = 2 ∨ v = 4 ∨ v = 6 := by
  unfold dst_to_bits at h
  split at h <;> simp_all

/-- C7: for every instruction shape of the table and every operand token its
field encoders accept, the shape's fixed constant and the encoder's returned
bit pattern have empty bitwise overlap (and for the two-operand `mov` shape,
so do the two field encodings), so the OR-combination forming the opcode
byte loses no information.  The constant groups are: the arithmetic and
register-logic shapes using `src_to_bits`; the shift shapes using
`half_imm_to_bits`; the load/store and immediate shapes using `imm_to_bits`;
`ssr` using `status_to_bits`; and `mov` using `special_to_bits` and
`dst_to_bits`. -/
theorem C7_disjoint_fields :
    (∀ s v, src_to_bits s = some v →
      (0b00000000 &&& v = 0 ∧ 0b00000001 &&& v = 0 ∧ 0b00000010 &&& v = 0 ∧
       0b00000011 &&& v = 0 ∧ 0b00000100 &&& v = 0 ∧ 0b00000101 &&& v = 0 ∧
       0b00000110 &&& v = 0 ∧ 0b00000111 &&& v = 0 ∧ 0b00100100 &&& v = 0 ∧
       0b00100101 &&& v = 0 ∧ 0b00100110 &&& v = 0)) ∧
    (∀ s v, half_imm_to_bits s = some v →
      (0b00100000 &&& v = 0 ∧ 0b00100001 &&& v = 0 ∧ 0b00100010 &&& v = 0 ∧
       0b00100011 &&& v = 0)) ∧
    (∀ s v, imm_to_bits s = some v →
      (0b01000000 &&& v = 0 ∧ 0b01010000 &&& v = 0 ∧ 0b10000000 &&& v = 0 ∧
       0b10010000 &&& v = 0 ∧ 0b10100000 &&& v = 0 ∧ 0b10110000 &&& v = 0)) ∧
    (∀ s v, status_to_bits s = some v → 0b11010000 &&& v = 0) ∧
    (∀ s v, special_to_bits s = some v → 0b11100000 &&& v = 0) ∧
    (∀ s v, dst_to_bits s = some v → 0b11100000 &&& v = 0) ∧
    (∀ s v t w, special_to_bits s = some v → dst_to_bits t = some w →
      v &&& w = 0) := by
  refine ⟨fun s v h => ?_, fun s v h => ?_, fun s v h => ?_, fun s v h => ?_,
    fun s v h => ?_, fun s v h => ?_, fun s v t w hv hw => ?_⟩
  · rcases src_to_bits_range s v h with rfl | rfl | rfl | rfl <;> decide
  · rcases half_imm_to_bits_range s v h with rfl | rfl | rfl | rfl <;> decide
  · have := imm_to_bits_range s v h
    interval_cases v <;> decide
  · have := status_to_bits_range s v h
    interval_cases v <;> decide
  · rcases special_to_bits_range s v h with
      rfl | rfl | rfl | rfl | rfl | rfl | rfl | rfl <;> decide
  · rcases dst_to_bits_range s v h with rfl | rfl | rfl | rfl <;> decide
  · rcases special_to_bits_range s v hv with
      rfl | rfl | rfl | rfl | rfl | rfl | rfl | rfl <;>
    rcases dst_to_bits_range t w hw with rfl | rfl | rfl | rfl <;> decide

/-- Witness for C7: the `add`-family constant against `src_to_bits "r1"`. -/
theorem C7_witness : src_to_bits "r1" = some 8 ∧ (0b00000100 : Nat) &&& 8 = 0 :=
  ⟨rfl, (C7_disjoint_fields.1 "r1" 8 rfl).2.2.2.2.1⟩
